import Mathlib

/-
Verification development for the obs-transcriber repository.

Shallow embedding of the transcript pipeline and the recording controller:
  - src/scripts/filter_hallucinations.py  (hallucination filter)
  - src/scripts/interleave.py             (transcript merge and rendering)
  - src/scripts/speaker_diarization.py    (overlap-based speaker assignment)
  - src/web/recorder.py                   (recording controller state machine)

Subtitle times are modelled as integer milliseconds (SRT has millisecond
resolution; Python timedelta arithmetic on them is exact).  Diarization times
are modelled as rationals, standing for the real-valued seconds the code
manipulates.  Filesystem and subprocess effects of the controller are passed
in as explicit oracle parameters.
-/

/-- Membership test for the six ASCII whitespace characters recognised by the
Python functions str.strip and str.split and by the regex class backslash-s. -/
def isPySpace (c : Char) : Bool :=
  c == ' ' || c == '\t' || c == '\n' || c == '\r' || c == '\x0b' || c == '\x0c'

/-- Python str.strip with no argument: drop leading and trailing whitespace. -/
def pyStrip (s : String) : String :=
  String.mk (((s.data.dropWhile isPySpace).reverse.dropWhile isPySpace).reverse)

/-- Python str.lower, adequate for the ASCII strings handled here. -/
def pyLower (s : String) : String :=
  String.mk (s.data.map Char.toLower)

/-- Python str.split with no separator: split on whitespace runs and discard
empty pieces. -/
def pyWords (s : String) : List String :=
  (s.split (fun c => isPySpace c)).filter (fun w => !w.isEmpty)

/-- The apostrophe character, written by code point to keep it out of string
literals. -/
def apos : Char := Char.ofNat 39

/-- A parsed SRT subtitle entry (the srt library Subtitle object): positional
index, start and end times in integer milliseconds, and the text content.
The field `stop` models the attribute named end in the source, a Lean
keyword. -/
structure Caption where
  index : Nat
  start : Int
  stop : Int
  content : String
  deriving DecidableEq

/-- The non-index fields of an entry: start, end, text.  Used to state that
the filter never modifies an entry, only drops it or renumbers its index. -/
def Caption.meta (s : Caption) : Int × Int × String := (s.start, s.stop, s.content)

/-- The phrase written in the source as don + apostrophe + t forget to like
and subscribe. -/
def dontForget : String :=
  "don" ++ String.singleton apos ++ "t forget to like and subscribe"

/-- The fixed hallucination regex list of filter_hallucinations.py lines
19-29.  Each regex is anchored on both sides with an optional trailing
period, so matching is plain string equality; the dot-run regex is one or
more periods, and the last regex matches the empty string. -/
def matchesHalluPattern (text : String) : Bool :=
  text == "thank you" || text == "thank you." ||
  text == "thanks" || text == "thanks." ||
  text == "thank you very much" || text == "thank you very much." ||
  text == "thanks for watching" || text == "thanks for watching." ||
  text == dontForget || text == dontForget ++ "." ||
  text == "subscribe" || text == "subscribe." ||
  text == "like and subscribe" || text == "like and subscribe." ||
  (!text.isEmpty && text.data.all (fun c => c == '.')) ||
  text.isEmpty

/-- The closed phrase set of filter_hallucinations.py line 43. -/
def closedSetPhrase (text : String) : Bool :=
  text == "thank you" || text == "thanks" || text == "yes" ||
  text == "no" || text == "okay" || text == "ok"

/-- Function is_hallucination of filter_hallucinations.py lines 12-46.  The
text is the stripped, lowercased content; the gap rule fires when the gap
from the end of previous to the start of this entry exceeds 20 seconds
(20000 ms, exact for integer milliseconds) and the word count is at most 2;
the closed-set rule additionally requires text length below 20.  The entry
index plays no part. -/
def is_hallucination (s : Caption) (previous : Option Caption) : Bool :=
  let text := pyLower (pyStrip s.content)
  if matchesHalluPattern text then true
  else if (match previous with
           | some p => decide (20000 < s.start - p.stop) &&
                       decide ((pyWords text).length ≤ 2)
           | none => false) then true
  else if text.length < 20 && closedSetPhrase text then true
  else false

/-- The filtering loop of filter_srt_file (lines 74-82): each entry is tested
against the most recently kept entry; a rejected entry is dropped and does
not become the reference for later gap tests. -/
def filterAux (previous : Option Caption) : List Caption → List Caption
  | [] => []
  | s :: rest =>
    if is_hallucination s previous then filterAux previous rest
    else s :: filterAux (some s) rest

/-- The in-loop renumbering subtitle.index = len(filtered) + 1: kept entries
receive consecutive indices starting from n. -/
def reindexFrom (n : Nat) : List Caption → List Caption
  | [] => []
  | s :: rest => { s with index := n } :: reindexFrom (n + 1) rest

/-- Function filter_srt_file of filter_hallucinations.py restricted to its
list transformation (lines 70-82).  The source renumbers each kept entry as
it is appended; since is_hallucination never reads the index, this equals
filtering first and renumbering afterwards. -/
def filter_srt_file (subs : List Caption) : List Caption :=
  reindexFrom 1 (filterAux none subs)

/-- The reference entry after the filtering loop has processed a prefix:
the most recently kept entry, starting from the given one.  Models the value
of the previous_subtitle variable of filter_srt_file across iterations. -/
def lastKept (previous : Option Caption) : List Caption → Option Caption
  | [] => previous
  | s :: rest =>
    if is_hallucination s previous then lastKept previous rest
    else lastKept (some s) rest

/-- The text-only rejection rules of is_hallucination: the fixed regex list
and the closed phrase set.  These are exactly the rules that can fire when
no previous entry exists. -/
def textOnlyReject (s : Caption) : Bool :=
  let text := pyLower (pyStrip s.content)
  matchesHalluPattern text || (text.length < 20 && closedSetPhrase text)

/-- A caption entry carrying the speaker attribute that interleave.py
attaches before merging. -/
structure LSub where
  start : Int
  stop : Int
  speaker : String
  content : String
  deriving DecidableEq

/-- Matching of the interleave.py regex (caret, bracket, the literal Speaker,
a space, one or more digits, closing bracket, one or more whitespace, then
any characters up to a newline, captured) against the character list of an
already stripped content string.  Returns the two capture groups: the label
Speaker-space-digits and the remainder of the line. -/
def parseTag (cs : List Char) : Option (List Char × List Char) :=
  if cs.take 9 = "[Speaker ".data then
    if ((cs.drop 9).takeWhile Char.isDigit).isEmpty then none
    else
      match (cs.drop 9).drop ((cs.drop 9).takeWhile Char.isDigit).length with
      | ']' :: rest2 =>
        if (rest2.takeWhile isPySpace).isEmpty then none
        else some ("Speaker ".data ++ (cs.drop 9).takeWhile Char.isDigit,
                   (rest2.drop (rest2.takeWhile isPySpace).length).takeWhile
                     (fun c => c != '\n'))
      | _ => none
  else none

/-- interleave.py lines 55-56: every entry of the me track gets the fixed
speaker label Me. -/
def labelMe (s : Caption) : LSub := ⟨s.start, s.stop, "Me", s.content⟩

/-- interleave.py lines 62-72: an others-track entry whose stripped content
matches the bracket regex gets the extracted label and the remainder as
content; otherwise it keeps its content and gets the fixed label Others. -/
def labelOther (s : Caption) : LSub :=
  match parseTag (pyStrip s.content).data with
  | some (sp, c) => ⟨s.start, s.stop, String.mk sp, String.mk c⟩
  | none => ⟨s.start, s.stop, "Others", s.content⟩

/-- The comparison used by sorted with key lambda x: x.start. -/
def leStart (a b : LSub) : Prop := a.start ≤ b.start

instance : DecidableRel leStart := fun a b => Int.decLe a.start b.start

instance : IsTotal LSub leStart := ⟨fun a b => Int.le_total a.start b.start⟩

instance : IsTrans LSub leStart := ⟨fun _ _ _ h1 h2 => le_trans h1 h2⟩

/-- Strict comparison on the start key, used to state that a sorted merge
with pairwise distinct start times is unique. -/
def ltStart (a b : LSub) : Prop := a.start < b.start

instance : IsAntisymm LSub ltStart := ⟨fun _ _ h1 h2 => absurd h2 (lt_asymm h1)⟩

/-- Python sorted is a stable sort; modelled as stable insertion sort on the
start key (interleave.py line 84). -/
def sortSubs (l : List LSub) : List LSub := List.insertionSort leStart l

/-- interleave.py line 84: the merge of two already labelled sequences is the
stable sort of their concatenation. -/
def mergeLabeled (xs ys : List LSub) : List LSub := sortSubs (xs ++ ys)

/-- The full merge of interleave.py main: label each track, concatenate me
track first, sort stably by start time. -/
def interleave (me others : List Caption) : List LSub :=
  mergeLabeled (me.map labelMe) (others.map labelOther)

/-- Two-digit zero padding as produced by str of a timedelta for the minute
and second fields. -/
def two (n : Nat) : String := if n < 10 then "0" ++ toString n else toString n

/-- The expression str(sub.start).split(dot)[0] of interleave.py line 88 for
a nonnegative timedelta of ms milliseconds: Python renders an optional day
count, then hours without zero padding, then two-digit minutes and seconds,
then an optional fractional part which the split truncates away.  SRT parsing
only produces nonnegative times. -/
def timestampStr (ms : Int) : String :=
  let s := ms.toNat / 1000
  let d := s / 86400
  let h := s % 86400 / 3600
  let m := s % 3600 / 60
  let sec := s % 60
  let base := toString h ++ ":" ++ two m ++ ":" ++ two sec
  if d == 0 then base
  else if d == 1 then "1 day, " ++ base
  else toString d ++ " days, " ++ base

/-- interleave.py line 89: one printed transcript body line. -/
def renderLine (x : LSub) : String :=
  "[" ++ timestampStr x.start ++ "] " ++ x.speaker ++ ": " ++ pyStrip x.content

/-- The transcript body printed by interleave.py lines 86-89: one rendered
line per merged entry. -/
def renderAll (me others : List Caption) : List String :=
  (interleave me others).map renderLine

/-- A diarization speaker segment: start and end in seconds (real-valued in
the source, modelled as rationals) and the raw speaker id string.  The field
`stop` models the key named end. -/
structure Segment where
  start : Rat
  stop : Rat
  speaker : String
  deriving DecidableEq

/-- The overlap duration of speaker_diarization.py lines 73-75. -/
def overlapDur (cs ce : Rat) (seg : Segment) : Rat :=
  max 0 (min ce seg.stop - max cs seg.start)

/-- The best-overlap selection loop of speaker_diarization.py lines 68-79:
running best overlap starts at 0 and best speaker at None; a segment takes
over only when its overlap strictly exceeds the running best. -/
def pickLoop (cs ce : Rat) : List Segment → Rat → Option String → Option String
  | [], _, best => best
  | seg :: rest, bestOv, best =>
    if bestOv < overlapDur cs ce seg then
      pickLoop cs ce rest (overlapDur cs ce seg) (some seg.speaker)
    else pickLoop cs ce rest bestOv best

/-- timedelta total_seconds for an entry time in milliseconds. -/
def secsOf (ms : Int) : Rat := (ms : Rat) / 1000

/-- Python split on a single underscore, over character lists: pieces between
underscores, empty pieces included, at least one piece. -/
def splitUnd : List Char → List (List Char)
  | [] => [[]]
  | c :: rest =>
    let r := splitUnd rest
    if c = '_' then [] :: r
    else (c :: r.headD []) :: r.tail

/-- The per-subtitle body of diarize_audio, speaker_diarization.py lines
63-86.  Python truthiness makes an empty winning speaker string behave like
None.  The expression best_speaker.split(underscore)[1] assumes at least one
underscore (pyannote ids always have one); modelled with getD. -/
def assignSpeaker (segs : List Segment) (s : Caption) : Caption :=
  match pickLoop (secsOf s.start) (secsOf s.stop) segs 0 none with
  | none => s
  | some sp =>
    if sp == "" then s
    else
      let num := String.mk ((splitUnd sp.data).getD 1 [])
      { s with content := "[Speaker " ++ num ++ "] " ++ s.content }

/-- Contents of the pending-meeting marker file of recorder.py. -/
structure Meeting where
  name : String
  date : String
  attendees : String
  deriving DecidableEq

/-- On-disk controller state: the marker file (None when absent) and the
lines of the processing queue file. -/
structure CtrlState where
  marker : Option Meeting
  queue : List String
  deriving DecidableEq

/-- Outcome of the subprocess call running the obs controller with check
equal to True: normal exit, or CalledProcessError with captured stderr. -/
inductive ObsCall where
  | ok
  | fail (stderr : String)
  deriving DecidableEq

/-- The result dictionary returned by the controller operations: success
flag and message or error text. -/
structure OpResult where
  success : Bool
  message : String
  deriving DecidableEq

/-- Method stop_recording of recorder.py lines 171-237.  External effects
appear as parameters: obs is the outcome of the recorder stop call, latest
is the stripped stdout of the find-newest-media-file shell pipeline (empty
when nothing was found).  On CalledProcessError the method returns without
touching the marker; when no media file is found it clears the marker and
fails; otherwise it appends one queue line and clears the marker. -/
def stop_recording (st : CtrlState) (obs : ObsCall) (latest : String) :
    CtrlState × OpResult :=
  match st.marker with
  | none => (st, ⟨false, "No recording in progress"⟩)
  | some m =>
    match obs with
    | .fail e => (st, ⟨false, "Failed to stop recording: " ++ e⟩)
    | .ok =>
      if latest == "" then
        ({ st with marker := none }, ⟨false, "Could not find recording file"⟩)
      else
        ({ marker := none,
           queue := st.queue ++
             [latest ++ ";" ++ m.name ++ ";" ++ m.date ++ ";recorded;" ++
              m.attendees] },
         ⟨true, "Recording stopped and queued for " ++ m.name⟩)

/-- Method abort_recording of recorder.py lines 356-422.  The parameter
cleanupExc stands for any exception raised while locating or deleting the
media file after a successful stop call.  Every branch that runs after the
marker existed at entry removes the marker, and none appends to the queue:
the success branch unlinks it, the CalledProcessError handler and the
generic exception handler unlink it when still present. -/
def abort_recording (st : CtrlState) (obs : ObsCall) (cleanupExc : Bool) :
    CtrlState × OpResult :=
  match st.marker with
  | none => (st, ⟨false, "No recording in progress"⟩)
  | some m =>
    match obs with
    | .fail e => ({ st with marker := none },
                  ⟨false, "Failed to stop recording: " ++ e⟩)
    | .ok =>
      if cleanupExc then
        ({ st with marker := none }, ⟨false, "Error during abort"⟩)
      else
        ({ st with marker := none },
         ⟨true, "Recording aborted for " ++ m.name ++ " (file deleted)"⟩)

/-! Lemmas about the hallucination filter. -/

theorem length_filterAux_le (l : List Caption) :
    ∀ previous, (filterAux previous l).length ≤ l.length := by
  induction l with
  | nil => intro previous; simp [filterAux]
  | cons s rest ih =>
    intro previous
    cases h : is_hallucination s previous with
    | true =>
      simp only [filterAux, h, if_true]
      exact le_trans (ih previous) (Nat.le_succ _)
    | false =>
      simp only [filterAux, h, if_false, List.length_cons]
      exact Nat.succ_le_succ (ih (some s))

theorem filterAux_idem (l : List Caption) :
    ∀ previous, filterAux previous (filterAux previous l) = filterAux previous l := by
  induction l with
  | nil => intro previous; rfl
  | cons s rest ih =>
    intro previous
    cases h : is_hallucination s previous with
    | true => simp only [filterAux, h, if_true]; exact ih previous
    | false => simp [filterAux, h, ih (some s)]

theorem reindexFrom_idem (l : List Caption) :
    ∀ n, reindexFrom n (reindexFrom n l) = reindexFrom n l := by
  induction l with
  | nil => intro n; rfl
  | cons s rest ih => intro n; simp [reindexFrom, ih (n + 1)]

theorem is_hallucination_index (s : Caption) (n : Nat) (previous : Option Caption) :
    is_hallucination { s with index := n } previous = is_hallucination s previous := rfl

theorem is_hallucination_prev_index (s p : Caption) (k : Nat) :
    is_hallucination s (some { p with index := k }) = is_hallucination s (some p) := rfl

theorem filterAux_reindexFrom (l : List Caption) :
    ∀ (previous : Option Caption) (k n : Nat),
      filterAux previous l = l →
      filterAux (previous.map (fun p => { p with index := k })) (reindexFrom n l) =
        reindexFrom n l := by
  induction l with
  | nil => intro previous k n _; rfl
  | cons s rest ih =>
    intro previous k n h
    have hkeep : is_hallucination s previous = false := by
      cases hh : is_hallucination s previous with
      | false => rfl
      | true =>
        exfalso
        have h1 : filterAux previous (s :: rest) = filterAux previous rest := by
          simp [filterAux, hh]
        rw [h1] at h
        have h2 := length_filterAux_le rest previous
        rw [h] at h2
        simp at h2
    have htail : filterAux (some s) rest = rest := by
      have h1 : filterAux previous (s :: rest) = s :: filterAux (some s) rest := by
        simp [filterAux, hkeep]
      rw [h1, List.cons.injEq] at h
      exact h.2
    have hkeep2 : is_hallucination { s with index := n }
        (previous.map (fun p => { p with index := k })) = false := by
      cases previous with
      | none => simpa [is_hallucination_index] using hkeep
      | some p =>
        simpa [Option.map, is_hallucination_index, is_hallucination_prev_index] using hkeep
    have hrec := ih (some s) n (n + 1) htail
    simp only [Option.map] at hrec
    show filterAux _ ({ s with index := n } :: reindexFrom (n + 1) rest) =
      { s with index := n } :: reindexFrom (n + 1) rest
    simp [filterAux, hkeep2, hrec]

theorem filterAux_sublist (l : List Caption) :
    ∀ previous, List.Sublist (filterAux previous l) l := by
  induction l with
  | nil => intro previous; simp [filterAux]
  | cons s rest ih =>
    intro previous
    cases h : is_hallucination s previous with
    | true => simp only [filterAux, h, if_true]; exact (ih previous).cons s
    | false => simp only [filterAux, h, if_false]; exact (ih (some s)).cons₂ s

theorem meta_reindexFrom (l : List Caption) :
    ∀ n, (reindexFrom n l).map Caption.meta = l.map Caption.meta := by
  induction l with
  | nil => intro n; rfl
  | cons s rest ih => intro n; simp [reindexFrom, Caption.meta, ih (n + 1)]

theorem length_reindexFrom (l : List Caption) :
    ∀ n, (reindexFrom n l).length = l.length := by
  induction l with
  | nil => intro n; rfl
  | cons s rest ih => intro n; simp [reindexFrom, ih (n + 1)]

theorem index_reindexFrom (l : List Caption) :
    ∀ n, (reindexFrom n l).map Caption.index = List.range' n l.length := by
  induction l with
  | nil => intro n; rfl
  | cons s rest ih =>
    intro n
    simp [reindexFrom, List.range'_succ, ih (n + 1)]

theorem filterAux_insert_rejected (pre : List Caption) :
    ∀ (previous : Option Caption) (s : Caption) (post : List Caption),
      is_hallucination s (lastKept previous pre) = true →
      filterAux previous (pre ++ s :: post) = filterAux previous (pre ++ post) := by
  induction pre with
  | nil =>
    intro previous s post h
    simp only [lastKept] at h
    simp [filterAux, h]
  | cons x pre ih =>
    intro previous s post h
    cases hx : is_hallucination x previous with
    | true =>
      have hrec := ih previous s post (by simpa [lastKept, hx] using h)
      simp [List.cons_append, filterAux, hx, hrec]
    | false =>
      have hrec := ih (some x) s post (by simpa [lastKept, hx] using h)
      simp [List.cons_append, filterAux, hx, hrec]

/-- C2: the hallucination filter is idempotent.  Filtering the output of
filter_srt_file removes nothing further and reassigns the same indices, so
the full list transformation is a fixed point on its own image. -/
theorem C2_filter_idempotent (subs : List Caption) :
    filter_srt_file (filter_srt_file subs) = filter_srt_file subs := by
  unfold filter_srt_file
  have h1 : filterAux none (filterAux none subs) = filterAux none subs :=
    filterAux_idem subs none
  have h2 := filterAux_reindexFrom (filterAux none subs) none 1 1 h1
  simp only [Option.map] at h2
  rw [h2, reindexFrom_idem]

/-- C4: the filter contract.  The output of filter_srt_file is a subsequence
of the input in original relative order with text, start and end unchanged
(equality of the meta projections as a sublist), its indices are exactly
1..M gap free, and its length M is at most the input length N. -/
theorem C4_filter_contract (subs : List Caption) :
    List.Sublist ((filter_srt_file subs).map Caption.meta) (subs.map Caption.meta) ∧
    (filter_srt_file subs).map Caption.index =
      List.range' 1 (filter_srt_file subs).length ∧
    (filter_srt_file subs).length ≤ subs.length := by
  refine ⟨?_, ?_, ?_⟩
  · rw [filter_srt_file, meta_reindexFrom]
    exact (filterAux_sublist subs none).map Caption.meta
  · rw [filter_srt_file, index_reindexFrom, length_reindexFrom]
  · rw [filter_srt_file, length_reindexFrom]
    exact length_filterAux_le subs none

/-- C10: the gap rule measures from the most recently kept entry.  First, an
entry rejected in its context never becomes the reference: deleting it from
the input does not change the filtering of what follows.  Second, with no
previous entry only the text rules can fire, so the first entry of a
sequence is never rejected by the gap rule: it survives exactly when the
text rules do not match it. -/
theorem C10_gap_reference :
    (∀ (previous : Option Caption) (pre : List Caption) (s : Caption)
       (post : List Caption),
       is_hallucination s (lastKept previous pre) = true →
       filterAux previous (pre ++ s :: post) = filterAux previous (pre ++ post)) ∧
    (∀ s : Caption, is_hallucination s none = textOnlyReject s) ∧
    (∀ (s : Caption) (rest : List Caption), textOnlyReject s = false →
       filter_srt_file (s :: rest) =
         { s with index := 1 } :: reindexFrom 2 (filterAux (some s) rest)) := by
  refine ⟨fun previous pre s post h => filterAux_insert_rejected pre previous s post h,
          ?_, ?_⟩
  · intro s
    unfold is_hallucination textOnlyReject
    cases h1 : matchesHalluPattern (pyLower (pyStrip s.content)) with
    | true => simp [h1]
    | false => simp [h1]
  · intro s rest h
    have hs : is_hallucination s none = false := by
      rw [show is_hallucination s none = textOnlyReject s from ?_, h]
      unfold is_hallucination textOnlyReject
      cases h1 : matchesHalluPattern (pyLower (pyStrip s.content)) with
      | true => simp [h1]
      | false => simp [h1]
    unfold filter_srt_file
    simp [filterAux, hs, reindexFrom]

/-! Lemmas about the merge. -/

theorem sortSubs_perm (l : List LSub) : List.Perm (sortSubs l) l :=
  List.perm_insertionSort leStart l

theorem sortSubs_sorted (l : List LSub) : List.Sorted leStart (sortSubs l) :=
  List.sorted_insertionSort leStart l

theorem filter_orderedInsert_eq (x : LSub) (t : Int) (hx : x.start = t) :
    ∀ l : List LSub,
      (List.orderedInsert leStart x l).filter (fun s => s.start == t) =
        x :: l.filter (fun s => s.start == t) := by
  intro l
  induction l with
  | nil => simp [List.orderedInsert, hx]
  | cons b l ih =>
    by_cases hb : leStart x b
    · simp [List.orderedInsert, hb, hx]
    · have hbt : ¬ b.start = t := by
        intro hbt
        exact hb (by simp [leStart, hx, hbt])
      simp [List.orderedInsert, hb, List.filter_cons, hbt, ih]

theorem filter_orderedInsert_ne (x : LSub) (t : Int) (hx : ¬ x.start = t) :
    ∀ l : List LSub,
      (List.orderedInsert leStart x l).filter (fun s => s.start == t) =
        l.filter (fun s => s.start == t) := by
  intro l
  induction l with
  | nil => simp [List.orderedInsert, hx]
  | cons b l ih =>
    by_cases hb : leStart x b
    · simp [List.orderedInsert, hb, List.filter_cons, hx]
    · simp [List.orderedInsert, hb, List.filter_cons, ih]

theorem filter_sortSubs (l : List LSub) (t : Int) :
    (sortSubs l).filter (fun s => s.start == t) =
      l.filter (fun s => s.start == t) := by
  induction l with
  | nil => rfl
  | cons x l ih =>
    show (List.orderedInsert leStart x (sortSubs l)).filter _ = _
    by_cases hx : x.start = t
    · rw [filter_orderedInsert_eq x t hx, ih]
      simp [List.filter_cons, hx]
    · rw [filter_orderedInsert_ne x t hx, ih]
      simp [List.filter_cons, hx]

/-- C1: the merge is a stable sort by start time.  The merged output is a
permutation of the labelled concatenation me track first, it is sorted by
start time ascending, and for every fixed start time the subsequence of
entries with that start time is exactly the one of the concatenation, in the
same order: two entries with identical start time keep their relative
concatenation order. -/
theorem C1_merge_stable_sort (me others : List Caption) :
    List.Perm (interleave me others) (me.map labelMe ++ others.map labelOther) ∧
    List.Pairwise (fun a b : LSub => a.start ≤ b.start) (interleave me others) ∧
    ∀ t : Int,
      (interleave me others).filter (fun s => s.start == t) =
        (me.map labelMe ++ others.map labelOther).filter (fun s => s.start == t) :=
  ⟨sortSubs_perm _,
   (sortSubs_sorted _).imp (fun h => h),
   fun t => filter_sortSubs _ t⟩

/-- C7: the merge is order independent in its two inputs apart from tie
order: merging the labelled sequences in either order yields permutations of
each other, and when all start times across the two inputs are pairwise
distinct the two merges are the same sequence. -/
theorem C7_merge_order_independent (xs ys : List LSub) :
    List.Perm (mergeLabeled xs ys) (mergeLabeled ys xs) ∧
    (List.Pairwise (fun a b : LSub => a.start ≠ b.start) (xs ++ ys) →
      mergeLabeled xs ys = mergeLabeled ys xs) := by
  have hperm : List.Perm (mergeLabeled xs ys) (mergeLabeled ys xs) :=
    ((sortSubs_perm (xs ++ ys)).trans List.perm_append_comm).trans
      (sortSubs_perm (ys ++ xs)).symm
  refine ⟨hperm, fun hne => ?_⟩
  have hne1 : List.Pairwise (fun a b : LSub => a.start ≠ b.start) (mergeLabeled xs ys) :=
    ((sortSubs_perm (xs ++ ys)).pairwise_iff (fun h => h.symm)).mpr hne
  have hne2 : List.Pairwise (fun a b : LSub => a.start ≠ b.start) (mergeLabeled ys xs) := by
    refine ((sortSubs_perm (ys ++ xs)).pairwise_iff (fun h => h.symm)).mpr ?_
    exact (List.perm_append_comm.pairwise_iff (fun h => h.symm)).mp hne
  have hs1 : List.Sorted ltStart (mergeLabeled xs ys) :=
    ((sortSubs_sorted (xs ++ ys)).and hne1).imp
      (fun h => lt_of_le_of_ne h.1 h.2)
  have hs2 : List.Sorted ltStart (mergeLabeled ys xs) :=
    ((sortSubs_sorted (ys ++ xs)).and hne2).imp
      (fun h => lt_of_le_of_ne h.1 h.2)
  exact List.eq_of_perm_of_sorted hperm hs1 hs2

theorem parseTag_speaker (cs : List Char) (sp c : List Char)
    (h : parseTag cs = some (sp, c)) :
    ∃ d : List Char, d ≠ [] ∧ (∀ ch ∈ d, ch.isDigit = true) ∧
      sp = "Speaker ".data ++ d := by
  unfold parseTag at h
  split at h
  · split at h
    · exact absurd h (by simp)
    · rename_i hne
      split at h
      · split at h
        · exact absurd h (by simp)
        · refine ⟨(cs.drop 9).takeWhile Char.isDigit,
            fun hnil => hne (by simp [hnil]), ?_, ?_⟩
          · intro ch hch
            exact List.mem_takeWhile_imp hch
          · have h2 := (Option.some.injEq _ _).mp h
            have h3 := congrArg Prod.fst h2
            simpa using h3.symm
      · exact absurd h (by simp)
  · exact absurd h (by simp)

/-- C9: every merged entry carries a speaker label that is Me, Others, or
the word Speaker followed by a space and a nonempty string of decimal
digits extracted from a leading bracket; in particular no label is empty. -/
theorem C9_speaker_labels (me others : List Caption) (x : LSub)
    (hx : x ∈ interleave me others) :
    x.speaker = "Me" ∨ x.speaker = "Others" ∨
    ∃ d : List Char, d ≠ [] ∧ (∀ ch ∈ d, ch.isDigit = true) ∧
      x.speaker = String.mk ("Speaker ".data ++ d) := by
  have hx' : x ∈ me.map labelMe ++ others.map labelOther :=
    (sortSubs_perm _).subset hx
  rcases List.mem_append.mp hx' with hmem | hmem
  · rcases List.mem_map.mp hmem with ⟨s, _, rfl⟩
    left; rfl
  · rcases List.mem_map.mp hmem with ⟨s, _, rfl⟩
    unfold labelOther
    cases hp : parseTag (pyStrip s.content).data with
    | none => right; left; simp [hp]
    | some pr =>
      obtain ⟨sp, c⟩ := pr
      rcases parseTag_speaker _ sp c hp with ⟨d, hd1, hd2, hd3⟩
      right; right
      exact ⟨d, hd1, hd2, by simp [hp, hd3]⟩

/-! Lemmas about diarization speaker assignment. -/

theorem pickLoop_spec (cs ce : Rat) (segs : List Segment) :
    ∀ (bestOv : Rat) (best : Option String),
      (pickLoop cs ce segs bestOv best = best ∧
        ∀ seg ∈ segs, overlapDur cs ce seg ≤ bestOv) ∨
      (∃ i, ∃ h : i < segs.length,
        pickLoop cs ce segs bestOv best = some (segs.get ⟨i, h⟩).speaker ∧
        bestOv < overlapDur cs ce (segs.get ⟨i, h⟩) ∧
        (∀ j (hj : j < segs.length), j < i →
          overlapDur cs ce (segs.get ⟨j, hj⟩) <
            overlapDur cs ce (segs.get ⟨i, h⟩)) ∧
        (∀ j (hj : j < segs.length),
          overlapDur cs ce (segs.get ⟨j, hj⟩) ≤
            overlapDur cs ce (segs.get ⟨i, h⟩))) := by
  induction segs with
  | nil =>
    intro bestOv best
    left
    exact ⟨rfl, by simp⟩
  | cons seg rest ih =>
    intro bestOv best
    by_cases hov : bestOv < overlapDur cs ce seg
    · have hstep : pickLoop cs ce (seg :: rest) bestOv best =
          pickLoop cs ce rest (overlapDur cs ce seg) (some seg.speaker) := by
        simp [pickLoop, hov]
      rcases ih (overlapDur cs ce seg) (some seg.speaker) with
        ⟨heq, hall⟩ | ⟨i, hi, heq, hgt, hbef, hmax⟩
      · right
        refine ⟨0, Nat.succ_pos _, ?_, hov, ?_, ?_⟩
        · rw [hstep, heq]; rfl
        · intro j hj hj0
          exact absurd hj0 (Nat.not_lt_zero j)
        · intro j hj
          cases j with
          | zero => exact le_refl _
          | succ j => exact hall _ (List.get_mem rest j (Nat.lt_of_succ_lt_succ hj))
      · right
        refine ⟨i + 1, Nat.succ_lt_succ hi, ?_, lt_trans hov hgt, ?_, ?_⟩
        · rw [hstep, heq]; rfl
        · intro j hj hji
          cases j with
          | zero => exact hgt
          | succ j =>
            exact hbef j (Nat.lt_of_succ_lt_succ hj) (Nat.lt_of_succ_lt_succ hji)
        · intro j hj
          cases j with
          | zero => exact le_of_lt hgt
          | succ j => exact hmax j (Nat.lt_of_succ_lt_succ hj)
    · have hstep : pickLoop cs ce (seg :: rest) bestOv best =
          pickLoop cs ce rest bestOv best := by
        simp [pickLoop, hov]
      rcases ih bestOv best with ⟨heq, hall⟩ | ⟨i, hi, heq, hgt, hbef, hmax⟩
      · left
        refine ⟨by rw [hstep, heq], ?_⟩
        intro s hs
        rcases List.mem_cons.mp hs with rfl | hs
        · exact le_of_not_lt hov
        · exact hall s hs
      · right
        refine ⟨i + 1, Nat.succ_lt_succ hi, ?_, hgt, ?_, ?_⟩
        · rw [hstep, heq]; rfl
        · intro j hj hji
          cases j with
          | zero => exact lt_of_le_of_lt (le_of_not_lt hov) hgt
          | succ j =>
            exact hbef j (Nat.lt_of_succ_lt_succ hj) (Nat.lt_of_succ_lt_succ hji)
        · intro j hj
          cases j with
          | zero => exact le_trans (le_of_not_lt hov) (le_of_lt hgt)
          | succ j => exact hmax j (Nat.lt_of_succ_lt_succ hj)

/-- C3: diarization speaker assignment.  The overlap of a caption with a
segment is max 0 (min of ends minus max of starts); a labelled caption is
labelled by a segment of strictly largest positive overlap, strictly beating
every earlier segment (ties keep the first in traversal order); a caption
with no positively overlapping segment is unchanged; and on the example
caption spanning 10s to 20s with segments 0-12 and 12-25 the overlaps are
2 and 8 and the caption is prefixed with the Speaker 2 label. -/
theorem C3_diarization_overlap :
    (∀ (cs ce : Rat) (seg : Segment),
       overlapDur cs ce seg = max 0 (min ce seg.stop - max cs seg.start)) ∧
    (∀ (segs : List Segment) (s : Caption),
       (∀ seg ∈ segs, overlapDur (secsOf s.start) (secsOf s.stop) seg = 0) →
       assignSpeaker segs s = s) ∧
    (∀ (segs : List Segment) (s : Caption) (sp : String),
       pickLoop (secsOf s.start) (secsOf s.stop) segs 0 none = some sp →
       ∃ i, ∃ h : i < segs.length,
         (segs.get ⟨i, h⟩).speaker = sp ∧
         0 < overlapDur (secsOf s.start) (secsOf s.stop) (segs.get ⟨i, h⟩) ∧
         (∀ j (hj : j < segs.length), j < i →
           overlapDur (secsOf s.start) (secsOf s.stop) (segs.get ⟨j, hj⟩) <
             overlapDur (secsOf s.start) (secsOf s.stop) (segs.get ⟨i, h⟩)) ∧
         (∀ j (hj : j < segs.length),
           overlapDur (secsOf s.start) (secsOf s.stop) (segs.get ⟨j, hj⟩) ≤
             overlapDur (secsOf s.start) (secsOf s.stop) (segs.get ⟨i, h⟩))) ∧
    (overlapDur 10 20 ⟨0, 12, "Speaker_1"⟩ = 2 ∧
     overlapDur 10 20 ⟨12, 25, "Speaker_2"⟩ = 8 ∧
     assignSpeaker [⟨0, 12, "Speaker_1"⟩, ⟨12, 25, "Speaker_2"⟩]
         ⟨1, 10000, 20000, "hello"⟩ =
       ⟨1, 10000, 20000, "[Speaker 2] hello"⟩) := by
  refine ⟨fun cs ce seg => rfl, ?_, ?_, ?_, ?_, ?_⟩
  · intro segs s hz
    rcases pickLoop_spec (secsOf s.start) (secsOf s.stop) segs 0 none with
      ⟨heq, _⟩ | ⟨i, hi, _, hgt, _, _⟩
    · simp [assignSpeaker, heq]
    · rw [hz _ (List.get_mem segs i hi)] at hgt
      exact absurd hgt (lt_irrefl 0)
  · intro segs s sp hsp
    rcases pickLoop_spec (secsOf s.start) (secsOf s.stop) segs 0 none with
      ⟨heq, _⟩ | ⟨i, hi, heq, hgt, hbef, hmax⟩
    · rw [heq] at hsp
      exact absurd hsp (by simp)
    · rw [heq] at hsp
      exact ⟨i, hi, (Option.some.injEq _ _).mp hsp, hgt, hbef, hmax⟩
  · norm_num [overlapDur]
  · norm_num [overlapDur]
  · norm_num [assignSpeaker, pickLoop, overlapDur, secsOf]
    decide

/-! Rendering and controller claims. -/

theorem timestampStr_congr (a b : Int) (h : a.toNat / 1000 = b.toNat / 1000) :
    timestampStr a = timestampStr b := by
  unfold timestampStr
  rw [h]

/-- C6 fails on the code: the renderer formats the start time with
str(timedelta), which does not zero pad the hour field, so the example
merge renders 0:00:00 and 0:00:01 rather than 00:00:00 and 00:00:01. -/
theorem C6_counterexample :
    renderAll [⟨1, 1000, 2000, "Hi"⟩] [⟨1, 0, 1000, "[Speaker 1] Hello"⟩] =
      ["[0:00:00] Speaker 1: Hello", "[0:00:01] Me: Hi"] ∧
    renderAll [⟨1, 1000, 2000, "Hi"⟩] [⟨1, 0, 1000, "[Speaker 1] Hello"⟩] ≠
      ["[00:00:00] Speaker 1: Hello", "[00:00:01] Me: Hi"] := by
  constructor
  · decide
  · decide

/-- C6 amended: every merged transcript body line is the bracketed start
timestamp, the speaker, a colon and the stripped text, where the timestamp
renders hours unpadded and minutes and seconds as two digits, and is
truncated (not rounded) to whole seconds; the example merge yields the two
lines with unpadded hours. -/
theorem C6_render_amended :
    (∀ x : LSub, renderLine x =
       "[" ++ timestampStr x.start ++ "] " ++ x.speaker ++ ": " ++
         pyStrip x.content) ∧
    (∀ h m s : Nat, h < 24 → m < 60 → s < 60 →
       timestampStr (((3600 * h + 60 * m + s) * 1000 : Nat) : Int) =
         toString h ++ ":" ++ two m ++ ":" ++ two s) ∧
    (∀ k r : Nat, r < 1000 →
       timestampStr ((1000 * k + r : Nat) : Int) =
         timestampStr ((1000 * k : Nat) : Int)) ∧
    renderAll [⟨1, 1000, 2000, "Hi"⟩] [⟨1, 0, 1000, "[Speaker 1] Hello"⟩] =
      ["[0:00:00] Speaker 1: Hello", "[0:00:01] Me: Hi"] := by
  refine ⟨fun x => rfl, ?_, ?_, by decide⟩
  · intro h m s hh hm hs
    have e0 : ((3600 * h + 60 * m + s) * 1000 : Nat) / 1000 =
        3600 * h + 60 * m + s := by omega
    have e1 : (3600 * h + 60 * m + s) / 86400 = 0 := by omega
    have e2 : (3600 * h + 60 * m + s) % 86400 / 3600 = h := by omega
    have e3 : (3600 * h + 60 * m + s) % 3600 / 60 = m := by omega
    have e4 : (3600 * h + 60 * m + s) % 60 = s := by omega
    simp only [timestampStr, Int.toNat_natCast, e0, e1, e2, e3, e4]
    simp
  · intro k r hr
    apply timestampStr_congr
    rw [Int.toNat_natCast, Int.toNat_natCast]
    omega

theorem C6_render_amended_witness :
    timestampStr (((3600 * 1 + 60 * 2 + 3) * 1000 : Nat) : Int) =
      toString (1 : Nat) ++ ":" ++ two 2 ++ ":" ++ two 3 ∧
    timestampStr ((1000 * 5 + 999 : Nat) : Int) =
      timestampStr ((1000 * 5 : Nat) : Int) :=
  ⟨C6_render_amended.2.1 1 2 3 (by decide) (by decide) (by decide),
   C6_render_amended.2.2.1 5 999 (by decide)⟩

/-- C5 fails on the code: stop_recording returns without touching the
marker file when the recorder stop call raises CalledProcessError, so that
path leaves the system in the Recording state. -/
theorem C5_counterexample :
    (stop_recording ⟨some ⟨"mtg", "20240204_1000", ""⟩, []⟩
        (.fail "boom") "rec.mkv").1.marker = some ⟨"mtg", "20240204_1000", ""⟩ ∧
    (stop_recording ⟨some ⟨"mtg", "20240204_1000", ""⟩, []⟩
        (.fail "boom") "rec.mkv").1.marker ≠ none := by
  constructor
  · rfl
  · decide

/-- C5 amended: abort_recording clears the marker on every path on which it
existed at entry, including recorder stop failure; stop_recording clears
the marker whenever the recorder stop call succeeds (whether or not a media
file is found), but keeps the marker unchanged when the recorder stop call
fails. -/
theorem C5_marker_cleanup (st : CtrlState) (m : Meeting)
    (h : st.marker = some m) :
    (∀ (obs : ObsCall) (exc : Bool), (abort_recording st obs exc).1.marker = none) ∧
    (∀ latest : String, (stop_recording st .ok latest).1.marker = none) ∧
    (∀ e latest : String,
      (stop_recording st (.fail e) latest).1.marker = st.marker) := by
  refine ⟨?_, ?_, ?_⟩
  · intro obs exc
    cases obs with
    | ok => cases exc <;> simp [abort_recording, h]
    | fail e => simp [abort_recording, h]
  · intro latest
    cases hl : (latest == "") <;> simp [stop_recording, h, hl]
  · intro e latest
    simp [stop_recording, h]

theorem C5_marker_cleanup_witness :
    (abort_recording ⟨some ⟨"m", "d", ""⟩, []⟩ (.fail "x") false).1.marker = none ∧
    (stop_recording ⟨some ⟨"m", "d", ""⟩, []⟩ .ok "rec.mkv").1.marker = none :=
  ⟨(C5_marker_cleanup ⟨some ⟨"m", "d", ""⟩, []⟩ ⟨"m", "d", ""⟩ rfl).1
      (.fail "x") false,
   (C5_marker_cleanup ⟨some ⟨"m", "d", ""⟩, []⟩ ⟨"m", "d", ""⟩ rfl).2.1 "rec.mkv"⟩

/-- C8: abort_recording clears the marker on every path on which a marker
existed at entry, including when the recorder stop call fails and when
locating or deleting the media file raises, and it never appends a queue
entry. -/
theorem C8_abort_clears_marker (st : CtrlState) (m : Meeting)
    (h : st.marker = some m) (obs : ObsCall) (exc : Bool) :
    (abort_recording st obs exc).1.marker = none ∧
    (abort_recording st obs exc).1.queue = st.queue := by
  cases obs with
  | ok => cases exc <;> simp [abort_recording, h]
  | fail e => simp [abort_recording, h]

theorem C8_abort_clears_marker_witness :
    (abort_recording ⟨some ⟨"m", "d", "a|b"⟩, ["q1"]⟩ (.fail "boom") true).1.marker =
      none ∧
    (abort_recording ⟨some ⟨"m", "d", "a|b"⟩, ["q1"]⟩ (.fail "boom") true).1.queue =
      ["q1"] :=
  C8_abort_clears_marker ⟨some ⟨"m", "d", "a|b"⟩, ["q1"]⟩ ⟨"m", "d", "a|b"⟩ rfl
    (.fail "boom") true

/-! Witnesses for the theorems with hypotheses. -/

theorem C3_diarization_overlap_witness :
    assignSpeaker [⟨30, 40, "Speaker_1"⟩] ⟨1, 0, 1000, "x"⟩ = ⟨1, 0, 1000, "x"⟩ ∧
    (∃ i, ∃ h : i < ([⟨12, 25, "Speaker_2"⟩] : List Segment).length,
       (([⟨12, 25, "Speaker_2"⟩] : List Segment).get ⟨i, h⟩).speaker = "Speaker_2" ∧
       0 < overlapDur (secsOf 10000) (secsOf 20000)
           (([⟨12, 25, "Speaker_2"⟩] : List Segment).get ⟨i, h⟩) ∧
       (∀ j (hj : j < ([⟨12, 25, "Speaker_2"⟩] : List Segment).length), j < i →
         overlapDur (secsOf 10000) (secsOf 20000)
             (([⟨12, 25, "Speaker_2"⟩] : List Segment).get ⟨j, hj⟩) <
           overlapDur (secsOf 10000) (secsOf 20000)
             (([⟨12, 25, "Speaker_2"⟩] : List Segment).get ⟨i, h⟩)) ∧
       (∀ j (hj : j < ([⟨12, 25, "Speaker_2"⟩] : List Segment).length),
         overlapDur (secsOf 10000) (secsOf 20000)
             (([⟨12, 25, "Speaker_2"⟩] : List Segment).get ⟨j, hj⟩) ≤
           overlapDur (secsOf 10000) (secsOf 20000)
             (([⟨12, 25, "Speaker_2"⟩] : List Segment).get ⟨i, h⟩))) := by
  constructor
  · apply C3_diarization_overlap.2.1
    intro seg hseg
    simp only [List.mem_singleton] at hseg
    subst hseg
    norm_num [overlapDur, secsOf]
  · exact C3_diarization_overlap.2.2.1 [⟨12, 25, "Speaker_2"⟩]
      ⟨1, 10000, 20000, "hello"⟩ "Speaker_2"
      (by norm_num [pickLoop, overlapDur, secsOf])

theorem C7_merge_order_independent_witness :
    List.Perm (mergeLabeled [⟨0, 1000, "Me", "a"⟩] [⟨5000, 6000, "Others", "b"⟩])
      (mergeLabeled [⟨5000, 6000, "Others", "b"⟩] [⟨0, 1000, "Me", "a"⟩]) ∧
    mergeLabeled [⟨0, 1000, "Me", "a"⟩] [⟨5000, 6000, "Others", "b"⟩] =
      mergeLabeled [⟨5000, 6000, "Others", "b"⟩] [⟨0, 1000, "Me", "a"⟩] :=
  ⟨(C7_merge_order_independent [⟨0, 1000, "Me", "a"⟩] [⟨5000, 6000, "Others", "b"⟩]).1,
   (C7_merge_order_independent [⟨0, 1000, "Me", "a"⟩] [⟨5000, 6000, "Others", "b"⟩]).2
     (by decide)⟩

theorem C9_speaker_labels_witness :
    (labelMe ⟨1, 0, 1000, "Hi"⟩).speaker = "Me" ∨
    (labelMe ⟨1, 0, 1000, "Hi"⟩).speaker = "Others" ∨
    ∃ d : List Char, d ≠ [] ∧ (∀ ch ∈ d, ch.isDigit = true) ∧
      (labelMe ⟨1, 0, 1000, "Hi"⟩).speaker = String.mk ("Speaker ".data ++ d) :=
  C9_speaker_labels [⟨1, 0, 1000, "Hi"⟩] [] (labelMe ⟨1, 0, 1000, "Hi"⟩) (by decide)

theorem C10_gap_reference_witness :
    filterAux none
        ([] ++ ⟨1, 0, 1000, "Thank you."⟩ ::
          [⟨2, 1500, 3000, "Hello there my friend"⟩]) =
      filterAux none ([] ++ [⟨2, 1500, 3000, "Hello there my friend"⟩]) ∧
    filter_srt_file [⟨5, 0, 1000, "Hello there my friend"⟩] =
      [⟨1, 0, 1000, "Hello there my friend"⟩] := by
  constructor
  · exact C10_gap_reference.1 none [] ⟨1, 0, 1000, "Thank you."⟩
      [⟨2, 1500, 3000, "Hello there my friend"⟩] (by decide)
  · rw [C10_gap_reference.2.2 ⟨5, 0, 1000, "Hello there my friend"⟩ [] (by decide)]
    rfl
